import Mathlib

set_option maxHeartbeats 1000000

/-! Shallow embedding of the cfg Go package (ev-kotov/cfg): a configuration
loader that fills a caller-supplied struct from a YAML file and then
overrides tagged fields from process environment variables (src/cfg.go).
Go strings are modelled as their character sequences. -/

/-- A Go string, modelled as its sequence of characters. -/
abbrev GoStr := List Char

/-- ASCII uppercase of one character: the effect of strings.ToUpper on the
ASCII range ('a'..'z' shift to 'A'..'Z', everything else unchanged).
Non-ASCII simple case mappings of unicode.ToUpper are outside the model. -/
def goUpperChar : Char → Char
  | 'a' => 'A'
  | 'b' => 'B'
  | 'c' => 'C'
  | 'd' => 'D'
  | 'e' => 'E'
  | 'f' => 'F'
  | 'g' => 'G'
  | 'h' => 'H'
  | 'i' => 'I'
  | 'j' => 'J'
  | 'k' => 'K'
  | 'l' => 'L'
  | 'm' => 'M'
  | 'n' => 'N'
  | 'o' => 'O'
  | 'p' => 'P'
  | 'q' => 'Q'
  | 'r' => 'R'
  | 's' => 'S'
  | 't' => 'T'
  | 'u' => 'U'
  | 'v' => 'V'
  | 'w' => 'W'
  | 'x' => 'X'
  | 'y' => 'Y'
  | 'z' => 'Z'
  | c => c

/-- strings.ToUpper (character-wise). -/
def goToUpper (s : GoStr) : GoStr := s.map goUpperChar

/-- strings.HasSuffix: len(s) >= len(sfx) && s[len(s)-len(sfx):] == sfx. -/
def goHasSuffix (s sfx : GoStr) : Bool :=
  decide (sfx.length ≤ s.length) && decide (s.drop (s.length - sfx.length) = sfx)

/-- strings.TrimSuffix: drop one occurrence of a trailing sfx, if present. -/
def goTrimSuffix (s sfx : GoStr) : GoStr :=
  if goHasSuffix s sfx then s.take (s.length - sfx.length) else s

/-- The normalization WithEnvPrefix (src/cfg.go:38-42) applies to its
argument: strings.TrimSuffix(strings.ToUpper(p), "_"). -/
def envPfxNormalize (p : GoStr) : GoStr := goTrimSuffix (goToUpper p) ['_']

/-- Go error values produced by the package, kept structurally:
strconv's *NumError, the "unsupported type" error of setFieldFromEnv, the
field-and-variable wrap of loadStructFromEnv, and plain / %w-wrapping
fmt.Errorf errors. -/
inductive GoError where
  | numError (fn : String) (num : GoStr) (reason : String)
  | unsupportedType (kindName : String)
  | setFieldErr (fieldName : String) (envVar : GoStr) (cause : GoError)
  | simpleMsg (msg : String)
  | wrapped (msg : String) (cause : GoError)
deriving DecidableEq

/-- The digit loop of strconv.ParseUint(s, 10, 64): s0 is the whole input
(used in errors), n the accumulator. cutoff = maxUint64/10 + 1; a step first
rejects a non-digit character, then reports overflow when the accumulator
reaches the cutoff or the new value exceeds maxUint64. -/
def parseUintLoop (s0 : GoStr) (n : Nat) : GoStr → Except GoError Nat
  | [] => .ok n
  | c :: rest =>
    if '0' ≤ c ∧ c ≤ '9' then
      if 1844674407370955162 ≤ n then
        .error (.numError "ParseUint" s0 "value out of range")
      else
        let n1 := n * 10 + (c.toNat - 48)
        if 18446744073709551615 < n1 then
          .error (.numError "ParseUint" s0 "value out of range")
        else parseUintLoop s0 n1 rest
    else .error (.numError "ParseUint" s0 "invalid syntax")

/-- strconv.ParseUint(s, 10, 64): no sign is permitted; the empty string is a
syntax error. -/
def goParseUint (s : GoStr) : Except GoError Nat :=
  if s = [] then .error (.numError "ParseUint" s "invalid syntax")
  else parseUintLoop s 0 s

/-- strconv.ParseInt(s, 10, 64): optional single sign, then the unsigned
parse; syntax errors are relabelled "ParseInt" over the full input, and a
value outside [-2^63, 2^63-1] is a range error. -/
def goParseInt (s : GoStr) : Except GoError Int :=
  match s with
  | [] => .error (.numError "ParseInt" s "invalid syntax")
  | c :: rest =>
    let neg := c = '-'
    let digits := if c = '+' ∨ c = '-' then rest else c :: rest
    match goParseUint digits with
    | .error (.numError _ _ reason) =>
      if reason = "value out of range" then
        .error (.numError "ParseInt" (c :: rest) "value out of range")
      else .error (.numError "ParseInt" (c :: rest) "invalid syntax")
    | .error e => .error e
    | .ok un =>
      if ¬neg ∧ 9223372036854775808 ≤ un then
        .error (.numError "ParseInt" (c :: rest) "value out of range")
      else if neg ∧ 9223372036854775808 < un then
        .error (.numError "ParseInt" (c :: rest) "value out of range")
      else .ok (if neg then -(un : Int) else (un : Int))

/-- strconv.ParseBool: exactly twelve accepted tokens. -/
def goParseBool (s : GoStr) : Except GoError Bool :=
  if s = "1".toList ∨ s = "t".toList ∨ s = "T".toList ∨
     s = "true".toList ∨ s = "TRUE".toList ∨ s = "True".toList then .ok true
  else if s = "0".toList ∨ s = "f".toList ∨ s = "F".toList ∨
     s = "false".toList ∨ s = "FALSE".toList ∨ s = "False".toList then .ok false
  else .error (.numError "ParseBool" s "invalid syntax")

/-- Carrier for a Go float64 value (an IEEE-754 bit pattern); floating-point
arithmetic is outside the model. -/
structure GoFloat where
  bits : Nat
deriving DecidableEq

/-- The floating-point collaborators used by setFieldFromEnv:
strconv.ParseFloat(value, 64), and the float64-to-float32 conversion that
reflect.Value.SetFloat performs on a float32 field. Their IEEE-754 semantics
are external; every theorem quantifies over them. -/
structure FloatOps where
  parseFloat : GoStr → Except GoError GoFloat
  toFloat32 : GoFloat → GoFloat

/-- reflect.Value.SetInt on a field of declared bit width w stores the int64
truncated (two's complement) to w bits; w = 64 for int and int64. -/
def truncInt (w : Nat) (x : Int) : Int :=
  let m := x % ((2 : Int) ^ w)
  if (2 : Int) ^ (w - 1) ≤ m then m - (2 : Int) ^ w else m

/-- reflect.Value.SetUint on a field of declared bit width w. -/
def truncUint (w : Nat) (n : Nat) : Nat := n % 2 ^ w

/-- A leaf scalar value together with its reflect kind. Declared widths: Go
int and int64 are 64 bits, int8 is 8, and so on; float32 is flagged is32.
unsupported covers every kind outside the switch of setFieldFromEnv (slice,
map, pointer, ...), carrying the reflect.Kind name used in its error. -/
inductive Scalar where
  | str (v : GoStr)
  | intv (w : Nat) (v : Int)
  | uintv (w : Nat) (v : Nat)
  | floatv (is32 : Bool) (v : GoFloat)
  | boolv (v : Bool)
  | unsupported (kindName : String)
deriving DecidableEq

/-- The reflect kind of a scalar, forgetting the stored value. -/
inductive SKind where
  | str
  | intk (w : Nat)
  | uintk (w : Nat)
  | floatk (is32 : Bool)
  | boolk
  | unsupported (kindName : String)
deriving DecidableEq

/-- Kind of a scalar. -/
def Scalar.kind : Scalar → SKind
  | .str _ => .str
  | .intv w _ => .intk w
  | .uintv w _ => .uintk w
  | .floatv is32 _ => .floatk is32
  | .boolv _ => .boolk
  | .unsupported k => .unsupported k

/-- setFieldFromEnv (src/cfg.go:176-208): switch on the field's reflect
kind, parse the environment string accordingly, store on success. -/
def setFieldFromEnv (fops : FloatOps) (field : Scalar) (value : GoStr) :
    Except GoError Scalar :=
  match field with
  | .str _ => .ok (.str value)
  | .intv w _ =>
    match goParseInt value with
    | .error e => .error e
    | .ok n => .ok (.intv w (truncInt w n))
  | .uintv w _ =>
    match goParseUint value with
    | .error e => .error e
    | .ok n => .ok (.uintv w (truncUint w n))
  | .floatv is32 _ =>
    match fops.parseFloat value with
    | .error e => .error e
    | .ok x => .ok (.floatv is32 (if is32 then fops.toFloat32 x else x))
  | .boolv _ =>
    match goParseBool value with
    | .error e => .error e
    | .ok b => .ok (.boolv b)
  | .unsupported k => .error (.unsupportedType k)

/-- One declared field of a Go struct: its name, its env tag ([] when the tag
is absent), whether reflect can set it (false for unexported fields), and
either a leaf scalar or a nested struct given by its own field list. -/
inductive FieldTree where
  | leaf (nm : String) (tag : GoStr) (cs : Bool) (sc : Scalar)
  | nested (nm : String) (tag : GoStr) (cs : Bool) (fields : List FieldTree)

/-- Whether reflect.Value.CanSet holds for the field. -/
def FieldTree.canSet : FieldTree → Bool
  | .leaf _ _ cs _ => cs
  | .nested _ _ cs _ => cs

/-- The process environment, as a map from variable names to values. -/
abbrev Env := GoStr → Option GoStr

/-- os.LookupEnv. Go's syscall.Getenv returns found=false for the empty key
(env_unix.go guards len(key) == 0), so the empty name never resolves,
whatever the environment holds. -/
def lookupEnv (env : Env) (key : GoStr) : Option GoStr :=
  if key = [] then none else env key

/-- getEnvVarName (src/cfg.go:161-174): a tagged field gets
envPfx ++ "_" ++ uppercase(tag), or just uppercase(tag) when the prefix is
empty; an untagged field gets no name at all (the empty string). -/
def getEnvVarName (tag envPfx : GoStr) : GoStr :=
  if tag ≠ [] then
    let envName := goToUpper tag
    if envPfx ≠ [] then envPfx ++ '_' :: envName else envName
  else []

mutual

/-- One iteration of the loop body of loadStructFromEnv (src/cfg.go:133-156):
skip a non-settable field, recurse into a nested struct with the same prefix,
otherwise look up the computed variable name and set the field from its
value, wrapping a failure with the field name and the variable name. Returns
the field's state after the iteration (Go mutates the struct in place)
together with the error, if any. -/
def loadFieldFromEnv (fops : FloatOps) (env : Env) (envPfx : GoStr) :
    FieldTree → FieldTree × Option GoError
  | .leaf nm tag cs sc =>
    if cs then
      match lookupEnv env (getEnvVarName tag envPfx) with
      | none => (.leaf nm tag cs sc, none)
      | some v =>
        match setFieldFromEnv fops sc v with
        | .ok sc2 => (.leaf nm tag cs sc2, none)
        | .error e =>
          (.leaf nm tag cs sc, some (.setFieldErr nm (getEnvVarName tag envPfx) e))
    else (.leaf nm tag cs sc, none)
  | .nested nm tag cs inner =>
    if cs then
      let r := loadStructFromEnv fops env envPfx inner
      (.nested nm tag cs r.1, r.2)
    else (.nested nm tag cs inner, none)

/-- loadStructFromEnv (src/cfg.go:130-159): fields are visited in order; the
first failure aborts the walk, leaving earlier fields already overwritten and
later fields untouched. -/
def loadStructFromEnv (fops : FloatOps) (env : Env) (envPfx : GoStr) :
    List FieldTree → List FieldTree × Option GoError
  | [] => ([], none)
  | f :: rest =>
    let r := loadFieldFromEnv fops env envPfx f
    match r.2 with
    | some e => (r.1 :: rest, some e)
    | none =>
      let r2 := loadStructFromEnv fops env envPfx rest
      (r.1 :: r2.1, r2.2)

end

/-- Navigate a field path: each index selects a field, descending through
nested structs for the inner indices. -/
def getAtPath (fs : List FieldTree) : List Nat → Option FieldTree
  | [] => none
  | [i] => fs[i]?
  | i :: j :: rest =>
    match fs[i]? with
    | some (.nested _ _ _ inner) => getAtPath inner (j :: rest)
    | _ => none

/-- Every field along the path (the intermediate nested structs and the final
field itself) is settable. -/
def pathSettable (fs : List FieldTree) : List Nat → Bool
  | [] => false
  | [i] =>
    match fs[i]? with
    | some f => f.canSet
    | none => false
  | i :: j :: rest =>
    match fs[i]? with
    | some (.nested _ _ true inner) => pathSettable inner (j :: rest)
    | _ => false

/-- The option bundle (struct parameters, src/cfg.go:17-21): search paths,
base file name, environment prefix. -/
structure Params where
  paths : List GoStr
  nm : GoStr
  envPfx : GoStr
deriving DecidableEq

/-- defaultParameters (src/cfg.go:96-102). -/
def defaultParams : Params :=
  ⟨[".".toList, "./config".toList], "config".toList, "APP".toList⟩

/-- Action (func(*parameters), src/cfg.go:15). -/
def GoAction := Params → Params

/-- WithPaths (src/cfg.go:24-28). -/
def withPaths (ps : List GoStr) : GoAction := fun o => ⟨ps, o.nm, o.envPfx⟩

/-- WithName (src/cfg.go:31-35). -/
def withName (n : GoStr) : GoAction := fun o => ⟨o.paths, n, o.envPfx⟩

/-- WithEnvPrefix (src/cfg.go:38-42): stores the normalized prefix. -/
def withEnvPfx (p : GoStr) : GoAction := fun o => ⟨o.paths, o.nm, envPfxNormalize p⟩

/-- The dynamic (any-typed) argument of Load, classified exactly as the
reflect checks of validateConfig observe it: the nil interface, a
non-pointer value, a typed nil pointer, a pointer to a non-struct value, or
a pointer to a struct with its field list. -/
inductive GoAny where
  | nilInterface
  | nonPtr
  | nilPtr
  | ptrToNonStruct
  | ptrToStruct (fields : List FieldTree)

/-- validateConfig (src/cfg.go:75-94). -/
def validateConfig : GoAny → Option GoError
  | .nilInterface => some (.simpleMsg "config must not be nil")
  | .nonPtr => some (.simpleMsg "config must be a pointer to struct")
  | .nilPtr => some (.simpleMsg "config pointer must not be nil")
  | .ptrToNonStruct => some (.simpleMsg "config must be a pointer to struct")
  | .ptrToStruct _ => none

/-- The YAML phase (loadFromYaml, src/cfg.go:104-123): filesystem search and
yaml.Unmarshal are external collaborators of the package (spec section 1);
the phase is modelled as an arbitrary function from the search paths, the
base name and the record to the updated record and an optional error. -/
abbrev YamlPhase := List GoStr → GoStr → List FieldTree → List FieldTree × Option GoError

/-- loadFromEnv (src/cfg.go:125-128). -/
def loadFromEnv (fops : FloatOps) (env : Env) (p : Params)
    (fields : List FieldTree) : List FieldTree × Option GoError :=
  loadStructFromEnv fops env p.envPfx fields

/-- Load (src/cfg.go:52-73): validate the argument, apply the options over
the defaults, run the YAML phase, then the environment pass; each failure is
wrapped and returned, the record keeping whatever had been written so far.
The final catch-all branch is unreachable: validateConfig accepts only
pointer-to-struct arguments. -/
def Load (yaml : YamlPhase) (fops : FloatOps) (env : Env) (cfg : GoAny)
    (acts : List GoAction) : GoAny × Option GoError :=
  match validateConfig cfg with
  | some e => (cfg, some (.wrapped "invalid config" e))
  | none =>
    match cfg with
    | .ptrToStruct fields =>
      let p := acts.foldl (fun o a => a o) defaultParams
      let r := yaml p.paths p.nm fields
      match r.2 with
      | some e => (.ptrToStruct r.1, some (.wrapped "unload config file" e))
      | none =>
        let r2 := loadStructFromEnv fops env p.envPfx r.1
        match r2.2 with
        | some e => (.ptrToStruct r2.1, some (.wrapped "load env" e))
        | none => (.ptrToStruct r2.1, none)
    | _ => (cfg, none)

/-- A trivial floating-point collaborator, used to instantiate theorems on
concrete records (their fields never need a float parse to succeed). -/
def fops0 : FloatOps :=
  ⟨fun s => .error (.numError "ParseFloat" s "invalid syntax"), id⟩

/-- An environment holding exactly one variable. -/
def env1 (key val : GoStr) : Env := fun k => if k = key then some val else none

/-- Equality on Except is decidable when it is on both components. -/
instance {e a : Type} [DecidableEq e] [DecidableEq a] : DecidableEq (Except e a) := fun x y =>
  match x, y with
  | .error u, .error v =>
    if h : u = v then isTrue (congrArg Except.error h)
    else isFalse (fun hc => h (Except.error.inj hc))
  | .ok u, .ok v =>
    if h : u = v then isTrue (congrArg Except.ok h)
    else isFalse (fun hc => h (Except.ok.inj hc))
  | .error _, .ok _ => isFalse (fun hc => Except.noConfusion hc)
  | .ok _, .error _ => isFalse (fun hc => Except.noConfusion hc)

theorem goUpperChar_fix (c : Char) (h : c ∉ "abcdefghijklmnopqrstuvwxyz".toList) :
    goUpperChar c = c := by
  unfold goUpperChar
  split <;> simp_all +decide

theorem goUpperChar_idem (c : Char) : goUpperChar (goUpperChar c) = goUpperChar c := by
  by_cases h : c ∈ "abcdefghijklmnopqrstuvwxyz".toList
  · fin_cases h <;> decide
  · rw [goUpperChar_fix c h, goUpperChar_fix c h]

theorem goToUpper_idem (s : GoStr) : goToUpper (goToUpper s) = goToUpper s := by
  induction s with
  | nil => rfl
  | cons c rest ih => simp only [goToUpper, List.map_cons] at ih ⊢
                      rw [goUpperChar_idem]
                      exact congrArg _ ih

theorem goToUpper_goTrimSuffix (u sfx : GoStr) (h : goToUpper u = u) :
    goToUpper (goTrimSuffix u sfx) = goTrimSuffix u sfx := by
  unfold goTrimSuffix
  split
  · show goToUpper (u.take (u.length - sfx.length)) = u.take (u.length - sfx.length)
    unfold goToUpper
    rw [List.map_take]
    show (goToUpper u).take (u.length - sfx.length) = _
    rw [h]
  · exact h

theorem goToUpper_envPfxNormalize (p : GoStr) :
    goToUpper (envPfxNormalize p) = envPfxNormalize p :=
  goToUpper_goTrimSuffix (goToUpper p) ['_'] (goToUpper_idem p)

/-- C7 counterexample: the claim asserts idempotence of the WithEnvPrefix
normalization on every input, but strings.TrimSuffix strips only one trailing
underscore: "a__" normalizes to "A_", which normalizes again to "A". -/
theorem pfx_normalize_not_idem :
    envPfxNormalize (envPfxNormalize "a__".toList) ≠ envPfxNormalize "a__".toList := by
  decide

/-- C7 (amended): the WithEnvPrefix normalization is case-insensitive on
input, and idempotent exactly on the inputs whose normalized form does not
itself end in an underscore (an input whose uppercase form ends in two or
more underscores loses exactly one per application). -/
theorem pfx_normalize_conditional_idem (p : GoStr)
    (h : goHasSuffix (envPfxNormalize p) ['_'] = false) :
    envPfxNormalize (envPfxNormalize p) = envPfxNormalize p ∧
    ∀ q : GoStr, goToUpper q = goToUpper p → envPfxNormalize q = envPfxNormalize p := by
  constructor
  · show goTrimSuffix (goToUpper (envPfxNormalize p)) ['_'] = envPfxNormalize p
    rw [goToUpper_envPfxNormalize]
    unfold goTrimSuffix
    rw [h]
    simp
  · intro q hq
    show goTrimSuffix (goToUpper q) ['_'] = goTrimSuffix (goToUpper p) ['_']
    rw [hq]

/-- C7 witness: "myApp_" and "MYAPP_" differ only in letter case; both
normalize to "MYAPP", on which normalization is the identity. -/
theorem pfx_normalize_conditional_idem_inst :
    envPfxNormalize (envPfxNormalize "myApp_".toList) = envPfxNormalize "myApp_".toList ∧
    envPfxNormalize "MYAPP_".toList = envPfxNormalize "myApp_".toList := by
  have h := pfx_normalize_conditional_idem "myApp_".toList (by decide)
  exact ⟨h.1, h.2 "MYAPP_".toList (by decide)⟩

theorem loadField_leaf_untagged (fops : FloatOps) (env : Env) (envPfx : GoStr)
    (nm : String) (cs : Bool) (sc : Scalar) :
    loadFieldFromEnv fops env envPfx (.leaf nm [] cs sc) = (.leaf nm [] cs sc, none) := by
  cases cs <;> simp [loadFieldFromEnv, getEnvVarName, lookupEnv]

theorem loadStruct_cons_err (fops : FloatOps) (env : Env) (envPfx : GoStr)
    (f : FieldTree) (rest : List FieldTree) (e : GoError)
    (h : (loadFieldFromEnv fops env envPfx f).2 = some e) :
    loadStructFromEnv fops env envPfx (f :: rest) =
      ((loadFieldFromEnv fops env envPfx f).1 :: rest, some e) := by
  simp only [loadStructFromEnv, h]

theorem loadStruct_cons_ok (fops : FloatOps) (env : Env) (envPfx : GoStr)
    (f : FieldTree) (rest : List FieldTree)
    (h : (loadFieldFromEnv fops env envPfx f).2 = none) :
    loadStructFromEnv fops env envPfx (f :: rest) =
      ((loadFieldFromEnv fops env envPfx f).1 :: (loadStructFromEnv fops env envPfx rest).1,
       (loadStructFromEnv fops env envPfx rest).2) := by
  simp only [loadStructFromEnv, h]

theorem loadStruct_getElem_or (fops : FloatOps) (env : Env) (envPfx : GoStr)
    (fs : List FieldTree) (i : Nat) (f : FieldTree) (hf : fs[i]? = some f) :
    (loadStructFromEnv fops env envPfx fs).1[i]? =
        some (loadFieldFromEnv fops env envPfx f).1 ∨
    (loadStructFromEnv fops env envPfx fs).1[i]? = some f := by
  induction fs generalizing i with
  | nil => simp at hf
  | cons g rest ih =>
    cases hr : (loadFieldFromEnv fops env envPfx g).2 with
    | some e =>
      rw [loadStruct_cons_err fops env envPfx g rest e hr]
      cases i with
      | zero =>
        simp only [List.getElem?_cons_zero, Option.some_inj] at hf
        subst hf
        left
        simp
      | succ j =>
        right
        simpa using hf
    | none =>
      rw [loadStruct_cons_ok fops env envPfx g rest hr]
      cases i with
      | zero =>
        simp only [List.getElem?_cons_zero, Option.some_inj] at hf
        subst hf
        left
        simp
      | succ j =>
        simp only [List.getElem?_cons_succ] at hf ⊢
        exact ih j hf

theorem loadStruct_ok_getElem (fops : FloatOps) (env : Env) (envPfx : GoStr)
    (fs : List FieldTree) (i : Nat) (f : FieldTree)
    (h2 : (loadStructFromEnv fops env envPfx fs).2 = none) (hf : fs[i]? = some f) :
    (loadFieldFromEnv fops env envPfx f).2 = none ∧
    (loadStructFromEnv fops env envPfx fs).1[i]? =
      some (loadFieldFromEnv fops env envPfx f).1 := by
  induction fs generalizing i with
  | nil => simp at hf
  | cons g rest ih =>
    cases hr : (loadFieldFromEnv fops env envPfx g).2 with
    | some e =>
      rw [loadStruct_cons_err fops env envPfx g rest e hr] at h2
      simp at h2
    | none =>
      rw [loadStruct_cons_ok fops env envPfx g rest hr] at h2 ⊢
      cases i with
      | zero =>
        simp only [List.getElem?_cons_zero, Option.some_inj] at hf
        subst hf
        exact ⟨hr, by simp⟩
      | succ j =>
        simp only [List.getElem?_cons_succ] at hf ⊢
        exact ih j h2 hf

theorem loadStruct_getAtPath_or (fops : FloatOps) (env : Env) (envPfx : GoStr) :
    ∀ (path : List Nat) (fs : List FieldTree) (f : FieldTree),
      getAtPath fs path = some f →
      getAtPath (loadStructFromEnv fops env envPfx fs).1 path =
          some (loadFieldFromEnv fops env envPfx f).1 ∨
      getAtPath (loadStructFromEnv fops env envPfx fs).1 path = some f := by
  intro path
  induction path with
  | nil => intro fs f h; simp [getAtPath] at h
  | cons i rest ih =>
    intro fs f h
    cases rest with
    | nil =>
      simp only [getAtPath] at h ⊢
      exact loadStruct_getElem_or fops env envPfx fs i f h
    | cons j rest2 =>
      cases hfi : fs[i]? with
      | none => simp [getAtPath, hfi] at h
      | some g =>
        cases g with
        | leaf nm tag cs sc => simp [getAtPath, hfi] at h
        | nested nm tag cs inner =>
          simp only [getAtPath, hfi] at h
          rcases loadStruct_getElem_or fops env envPfx fs i _ hfi with h1 | h1
          · cases cs with
            | false =>
              simp only [loadFieldFromEnv, Bool.false_eq_true, if_false] at h1
              simp only [getAtPath, h1]
              right
              exact h
            | true =>
              simp only [loadFieldFromEnv, if_true] at h1
              simp only [getAtPath, h1]
              exact ih inner f h
          · simp only [getAtPath, h1]
            right
            exact h

theorem loadStruct_ok_getAtPath (fops : FloatOps) (env : Env) (envPfx : GoStr) :
    ∀ (path : List Nat) (fs : List FieldTree) (f : FieldTree),
      (loadStructFromEnv fops env envPfx fs).2 = none →
      getAtPath fs path = some f →
      pathSettable fs path = true →
      (loadFieldFromEnv fops env envPfx f).2 = none ∧
      getAtPath (loadStructFromEnv fops env envPfx fs).1 path =
        some (loadFieldFromEnv fops env envPfx f).1 := by
  intro path
  induction path with
  | nil => intro fs f h2 h hs; simp [getAtPath] at h
  | cons i rest ih =>
    intro fs f h2 h hs
    cases rest with
    | nil =>
      simp only [getAtPath] at h ⊢
      exact loadStruct_ok_getElem fops env envPfx fs i f h2 h
    | cons j rest2 =>
      cases hfi : fs[i]? with
      | none => simp [getAtPath, hfi] at h
      | some g =>
        cases g with
        | leaf nm tag cs sc => simp [getAtPath, hfi] at h
        | nested nm tag cs inner =>
          simp only [getAtPath, hfi] at h
          simp only [pathSettable, hfi] at hs
          cases cs with
          | false => simp at hs
          | true =>
            have helem := loadStruct_ok_getElem fops env envPfx fs i _ h2 hfi
            have hfld := helem.1
            simp only [loadFieldFromEnv, if_true] at hfld helem
            have hinner2 : (loadStructFromEnv fops env envPfx inner).2 = none := hfld
            have hrec := ih inner f hinner2 h hs
            refine ⟨hrec.1, ?_⟩
            simp only [getAtPath, helem.2]
            exact hrec.2

/-- C1: a scalar field with no override key (empty env tag) is left unchanged
by the environment pass, at any nesting depth, for every environment, every
prefix and every float collaborator: its computed variable name is the empty
string, which os.LookupEnv never resolves. -/
theorem untagged_scalar_invariant (fops : FloatOps) (env : Env) (envPfx : GoStr)
    (fs : List FieldTree) (path : List Nat) (nm : String) (cs : Bool) (sc : Scalar)
    (h : getAtPath fs path = some (.leaf nm [] cs sc)) :
    getAtPath (loadStructFromEnv fops env envPfx fs).1 path = some (.leaf nm [] cs sc) := by
  rcases loadStruct_getAtPath_or fops env envPfx path fs _ h with h1 | h1
  · rw [loadField_leaf_untagged] at h1
    exact h1
  · exact h1

/-- C1 witness: an untagged int field keeps its file value 3000 although
APP_TIMEOUT is set to "99". -/
theorem untagged_scalar_invariant_inst :
    getAtPath (loadStructFromEnv fops0 (env1 "APP_TIMEOUT".toList "99".toList)
        "APP".toList [.leaf "Timeout" [] true (.intv 64 3000)]).1 [0] =
      some (.leaf "Timeout" [] true (.intv 64 3000)) :=
  untagged_scalar_invariant fops0 (env1 "APP_TIMEOUT".toList "99".toList)
    "APP".toList [.leaf "Timeout" [] true (.intv 64 3000)] [0]
    "Timeout" true (.intv 64 3000) rfl

/-- C10: a non-settable (unexported) field is skipped wholesale by the pass:
it comes back unchanged with no error, and — the result being the same for
every environment — its variable is never consulted and a nested struct
under it is never traversed. -/
theorem non_settable_untouched (fops : FloatOps) (env : Env) (envPfx : GoStr)
    (f : FieldTree) (h : f.canSet = false) :
    loadFieldFromEnv fops env envPfx f = (f, none) := by
  cases f with
  | leaf nm tag cs sc =>
    simp only [FieldTree.canSet] at h
    subst h
    simp [loadFieldFromEnv]
  | nested nm tag cs inner =>
    simp only [FieldTree.canSet] at h
    subst h
    simp [loadFieldFromEnv]

/-- C10 witness: an unexported tagged field with its variable set is
returned unchanged and errorless. -/
theorem non_settable_untouched_inst :
    loadFieldFromEnv fops0 (env1 "APP_SECRET".toList "xyz".toList) "APP".toList
        (.leaf "secret" "SECRET".toList false (.str [])) =
      (.leaf "secret" "SECRET".toList false (.str []), none) :=
  non_settable_untouched fops0 (env1 "APP_SECRET".toList "xyz".toList) "APP".toList
    (.leaf "secret" "SECRET".toList false (.str [])) rfl

theorem setFieldFromEnv_kind_eq (fops : FloatOps) (v : GoStr) (sc0 sc : Scalar)
    (h : sc0.kind = sc.kind) :
    setFieldFromEnv fops sc0 v = setFieldFromEnv fops sc v := by
  cases sc0 <;> cases sc <;> simp_all [Scalar.kind, setFieldFromEnv]

/-- C2: when a settable leaf with a non-empty key has its computed variable
present with a value the field's kind parses, the pass (when it succeeds)
leaves exactly the parsed value in the field; and the stored result depends
only on the field's kind, not on its prior value. -/
theorem env_value_dominates (fops : FloatOps) (env : Env) (envPfx : GoStr)
    (fs : List FieldTree) (path : List Nat) (nm : String) (tag : GoStr)
    (sc sc2 : Scalar) (v : GoStr)
    (hok : (loadStructFromEnv fops env envPfx fs).2 = none)
    (hat : getAtPath fs path = some (.leaf nm tag true sc))
    (hps : pathSettable fs path = true)
    (henv : lookupEnv env (getEnvVarName tag envPfx) = some v)
    (hset : setFieldFromEnv fops sc v = .ok sc2) :
    getAtPath (loadStructFromEnv fops env envPfx fs).1 path =
      some (.leaf nm tag true sc2) ∧
    ∀ sc0 : Scalar, sc0.kind = sc.kind → setFieldFromEnv fops sc0 v = .ok sc2 := by
  have h := loadStruct_ok_getAtPath fops env envPfx path fs _ hok hat hps
  have hl : loadFieldFromEnv fops env envPfx (.leaf nm tag true sc) =
      (.leaf nm tag true sc2, none) := by
    simp [loadFieldFromEnv, henv, hset]
  refine ⟨?_, ?_⟩
  · rw [h.2, hl]
  · intro sc0 hk
    rw [setFieldFromEnv_kind_eq fops v sc0 sc hk]
    exact hset

/-- C2 witness: Server.Port (file value 3000) becomes 9090 from
APP_PORT="9090"; the same parse result is stored whatever the prior value
(777 here). -/
theorem env_value_dominates_inst :
    getAtPath (loadStructFromEnv fops0 (env1 "APP_PORT".toList "9090".toList) "APP".toList
        [.nested "Server" [] true [.leaf "Port" "PORT".toList true (.intv 64 3000)]]).1
        [0, 0] =
      some (.leaf "Port" "PORT".toList true (.intv 64 9090)) ∧
    setFieldFromEnv fops0 (.intv 64 777) "9090".toList = .ok (.intv 64 9090) := by
  have h := env_value_dominates fops0 (env1 "APP_PORT".toList "9090".toList) "APP".toList
    [.nested "Server" [] true [.leaf "Port" "PORT".toList true (.intv 64 3000)]]
    [0, 0] "Port" "PORT".toList (.intv 64 3000) (.intv 64 9090) "9090".toList
    rfl rfl rfl rfl rfl
  exact ⟨h.1, h.2 (.intv 64 777) rfl⟩

/-- C3: with a prefix produced by the WithEnvPrefix normalization, the name
computed for a tagged leaf is uppercase(prefix) ++ "_" ++ uppercase(tag), or
uppercase(tag) alone when the prefix is empty; and nesting depth is
irrelevant: on a successful pass, a settable leaf at any path ends up
exactly as that same leaf processed at top level under the same prefix
(the recursion hands the prefix down unchanged). -/
theorem env_name_depth_free (raw tag : GoStr) (htag : tag ≠ [])
    (fops : FloatOps) (env : Env) (fs : List FieldTree) (path : List Nat)
    (nm : String) (sc : Scalar)
    (hok : (loadStructFromEnv fops env (envPfxNormalize raw) fs).2 = none)
    (hat : getAtPath fs path = some (.leaf nm tag true sc))
    (hps : pathSettable fs path = true) :
    getEnvVarName tag (envPfxNormalize raw) =
      (if envPfxNormalize raw = [] then goToUpper tag
       else goToUpper (envPfxNormalize raw) ++ '_' :: goToUpper tag) ∧
    getAtPath (loadStructFromEnv fops env (envPfxNormalize raw) fs).1 path =
      some (loadFieldFromEnv fops env (envPfxNormalize raw) (.leaf nm tag true sc)).1 := by
  constructor
  · have hup := goToUpper_envPfxNormalize raw
    by_cases hp : envPfxNormalize raw = []
    · simp [getEnvVarName, htag, hp]
    · simp [getEnvVarName, htag, hp, hup]
  · exact (loadStruct_ok_getAtPath fops env (envPfxNormalize raw) path fs _ hok hat hps).2

/-- C3 witness: prefix input "test_" normalizes to "TEST"; a leaf with key
"v" two structs deep resolves through TEST_V and behaves as at top level. -/
theorem env_name_depth_free_inst :
    getEnvVarName "v".toList (envPfxNormalize "test_".toList) =
      (if envPfxNormalize "test_".toList = [] then goToUpper "v".toList
       else goToUpper (envPfxNormalize "test_".toList) ++ '_' :: goToUpper "v".toList) ∧
    getAtPath (loadStructFromEnv fops0 (env1 "TEST_V".toList "deep".toList)
        (envPfxNormalize "test_".toList)
        [.nested "L1" [] true [.nested "L2" [] true
          [.leaf "Value" "v".toList true (.str "old".toList)]]]).1 [0, 0, 0] =
      some (loadFieldFromEnv fops0 (env1 "TEST_V".toList "deep".toList)
        (envPfxNormalize "test_".toList) (.leaf "Value" "v".toList true (.str "old".toList))).1 :=
  env_name_depth_free "test_".toList "v".toList (by decide) fops0
    (env1 "TEST_V".toList "deep".toList)
    [.nested "L1" [] true [.nested "L2" [] true
      [.leaf "Value" "v".toList true (.str "old".toList)]]]
    [0, 0, 0] "Value" (.str "old".toList) rfl rfl rfl

/-- C4 counterexample: an int8 field with key "n" under the empty prefix and
environment value "300": 300 overflows int8, yet the pass succeeds and
stores the two's-complement truncation 44 — it does not return an error as
the claim requires. -/
theorem int8_overflow_silently_truncates :
    loadStructFromEnv fops0 (env1 "N".toList "300".toList) []
        [.leaf "Num" "n".toList true (.intv 8 0)] =
      ([.leaf "Num" "n".toList true (.intv 8 44)], none) := rfl

/-- C4 (amended): a signed-integer override is parsed as a 64-bit integer —
a non-numeric value or a 64-bit overflow is an error (carrying the field and
variable names), while a value within int64 but beyond the declared width w
is stored silently truncated (two's complement) to w bits. -/
theorem int_override_parse_semantics (fops : FloatOps) (env : Env) (envPfx : GoStr)
    (nm : String) (tag : GoStr) (w : Nat) (v : Int) (s : GoStr)
    (henv : lookupEnv env (getEnvVarName tag envPfx) = some s) :
    loadFieldFromEnv fops env envPfx (.leaf nm tag true (.intv w v)) =
      (match goParseInt s with
       | .ok n => (.leaf nm tag true (.intv w (truncInt w n)), none)
       | .error e => (.leaf nm tag true (.intv w v),
           some (.setFieldErr nm (getEnvVarName tag envPfx) e))) ∧
    goParseInt "9223372036854775808".toList =
      .error (.numError "ParseInt" "9223372036854775808".toList "value out of range") := by
  constructor
  · cases hp : goParseInt s with
    | ok n => simp [loadFieldFromEnv, henv, setFieldFromEnv, hp]
    | error e => simp [loadFieldFromEnv, henv, setFieldFromEnv, hp]
  · rfl

/-- C4 witness: the amended semantics at the counterexample input — "300"
into an int8 field stores 44 with no error. -/
theorem int_override_parse_semantics_inst :
    loadFieldFromEnv fops0 (env1 "N".toList "300".toList) []
        (.leaf "Num" "n".toList true (.intv 8 0)) =
      (.leaf "Num" "n".toList true (.intv 8 44), none) := by
  have h := (int_override_parse_semantics fops0 (env1 "N".toList "300".toList) []
    "Num" "n".toList 8 0 "300".toList rfl).1
  exact h

mutual

theorem loadField_err_shape (fops : FloatOps) (env : Env) (envPfx : GoStr) :
    ∀ (t : FieldTree) (e : GoError),
      (loadFieldFromEnv fops env envPfx t).2 = some e →
      ∃ nm envVar cause, e = .setFieldErr nm envVar cause
  | .leaf nm tag cs sc, e, h => by
    cases cs with
    | false => simp [loadFieldFromEnv] at h
    | true =>
      cases hl : lookupEnv env (getEnvVarName tag envPfx) with
      | none => simp [loadFieldFromEnv, hl] at h
      | some v =>
        cases hs : setFieldFromEnv fops sc v with
        | ok sc2 => simp [loadFieldFromEnv, hl, hs] at h
        | error e0 =>
          simp only [loadFieldFromEnv, hl, hs, if_true] at h
          simp only [Option.some_inj] at h
          exact ⟨nm, getEnvVarName tag envPfx, e0, h.symm⟩
  | .nested nm tag cs inner, e, h => by
    cases cs with
    | false => simp [loadFieldFromEnv] at h
    | true =>
      simp only [loadFieldFromEnv, if_true] at h
      exact loadStruct_err_shape fops env envPfx inner e h

theorem loadStruct_err_shape (fops : FloatOps) (env : Env) (envPfx : GoStr) :
    ∀ (fs : List FieldTree) (e : GoError),
      (loadStructFromEnv fops env envPfx fs).2 = some e →
      ∃ nm envVar cause, e = .setFieldErr nm envVar cause
  | [], e, h => by simp [loadStructFromEnv] at h
  | f :: rest, e, h => by
    cases hr : (loadFieldFromEnv fops env envPfx f).2 with
    | some e1 =>
      rw [loadStruct_cons_err fops env envPfx f rest e1 hr] at h
      simp only [Option.some_inj] at h
      subst h
      exact loadField_err_shape fops env envPfx f e1 hr
    | none =>
      rw [loadStruct_cons_ok fops env envPfx f rest hr] at h
      exact loadStruct_err_shape fops env envPfx rest e h

end

theorem loadStruct_err_decomp (fops : FloatOps) (env : Env) (envPfx : GoStr) :
    ∀ (fs fs2 : List FieldTree) (e : GoError),
      loadStructFromEnv fops env envPfx fs = (fs2, some e) →
      ∃ (i : Nat) (f : FieldTree), fs[i]? = some f ∧
        (loadFieldFromEnv fops env envPfx f).2 = some e ∧
        fs2[i]? = some (loadFieldFromEnv fops env envPfx f).1 ∧
        (∀ j, j < i → ∃ g, fs[j]? = some g ∧
          (loadFieldFromEnv fops env envPfx g).2 = none ∧
          fs2[j]? = some (loadFieldFromEnv fops env envPfx g).1) ∧
        (∀ j, i < j → fs2[j]? = fs[j]?) := by
  intro fs
  induction fs with
  | nil =>
    intro fs2 e h
    simp [loadStructFromEnv, Prod.mk.injEq] at h
  | cons g rest ih =>
    intro fs2 e h
    cases hr : (loadFieldFromEnv fops env envPfx g).2 with
    | some e1 =>
      rw [loadStruct_cons_err fops env envPfx g rest e1 hr] at h
      rw [Prod.mk.injEq] at h
      obtain ⟨h1, h2⟩ := h
      simp only [Option.some_inj] at h2
      subst h1
      subst h2
      refine ⟨0, g, by simp, hr, by simp, ?_, ?_⟩
      · intro j hj
        exact absurd hj (Nat.not_lt_zero j)
      · intro j hj
        cases j with
        | zero => exact absurd hj (Nat.lt_irrefl 0)
        | succ k => simp
    | none =>
      rw [loadStruct_cons_ok fops env envPfx g rest hr] at h
      rw [Prod.mk.injEq] at h
      obtain ⟨h1, h2⟩ := h
      subst h1
      have hrest : loadStructFromEnv fops env envPfx rest =
          ((loadStructFromEnv fops env envPfx rest).1, some e) := by
        rw [← h2]
      obtain ⟨i, f, ha, hb, hc, hd, he⟩ :=
        ih ((loadStructFromEnv fops env envPfx rest).1) e hrest
      refine ⟨i + 1, f, by simpa using ha, hb, by simpa using hc, ?_, ?_⟩
      · intro j hj
        cases j with
        | zero => exact ⟨g, by simp, hr, by simp⟩
        | succ k =>
          obtain ⟨g2, hg1, hg2, hg3⟩ := hd k (by omega)
          exact ⟨g2, by simpa using hg1, hg2, by simpa using hg3⟩
      · intro j hj
        cases j with
        | zero => omega
        | succ k => simpa using he k (by omega)

/-- C5: when the pass fails, the error is the field-and-variable-naming wrap
of loadStructFromEnv, and the record decomposes around a failing index: every
earlier field was processed successfully (its overwritten value stays — no
rollback), the failing field produced exactly this error, and every later
field is untouched. -/
theorem override_fail_fast (fops : FloatOps) (env : Env) (envPfx : GoStr)
    (fs fs2 : List FieldTree) (e : GoError)
    (h : loadStructFromEnv fops env envPfx fs = (fs2, some e)) :
    (∃ nm envVar cause, e = .setFieldErr nm envVar cause) ∧
    ∃ (i : Nat) (f : FieldTree), fs[i]? = some f ∧
      (loadFieldFromEnv fops env envPfx f).2 = some e ∧
      fs2[i]? = some (loadFieldFromEnv fops env envPfx f).1 ∧
      (∀ j, j < i → ∃ g, fs[j]? = some g ∧
        (loadFieldFromEnv fops env envPfx g).2 = none ∧
        fs2[j]? = some (loadFieldFromEnv fops env envPfx g).1) ∧
      (∀ j, i < j → fs2[j]? = fs[j]?) := by
  have hsnd : (loadStructFromEnv fops env envPfx fs).2 = some e := by rw [h]
  exact ⟨loadStruct_err_shape fops env envPfx fs e hsnd,
         loadStruct_err_decomp fops env envPfx fs fs2 e h⟩

/-- C5 witness: APP_A="hello" applies to the first field, APP_B="notanumber"
fails on the second; the returned error names field Bravo and variable APP_B,
and the first field keeps its overwritten value. -/
theorem override_fail_fast_inst :
    ∃ nm envVar cause,
      GoError.setFieldErr "Bravo" "APP_B".toList
          (.numError "ParseInt" "notanumber".toList "invalid syntax") =
        .setFieldErr nm envVar cause :=
  (override_fail_fast fops0
    (fun k => if k = "APP_A".toList then some "hello".toList
      else if k = "APP_B".toList then some "notanumber".toList else none)
    "APP".toList
    [.leaf "Alpha" "a".toList true (.str "old".toList),
     .leaf "Bravo" "b".toList true (.intv 64 0)]
    [.leaf "Alpha" "a".toList true (.str "hello".toList),
     .leaf "Bravo" "b".toList true (.intv 64 0)]
    (.setFieldErr "Bravo" "APP_B".toList
      (.numError "ParseInt" "notanumber".toList "invalid syntax"))
    rfl).1

theorem setFieldFromEnv_ok_idem (fops : FloatOps) (sc sc2 : Scalar) (v : GoStr)
    (h : setFieldFromEnv fops sc v = .ok sc2) :
    setFieldFromEnv fops sc2 v = .ok sc2 := by
  cases sc with
  | str s =>
    simp only [setFieldFromEnv] at h
    injection h with h2
    subst h2
    simp [setFieldFromEnv]
  | intv w x =>
    cases hp : goParseInt v with
    | error e => simp [setFieldFromEnv, hp] at h
    | ok n =>
      simp only [setFieldFromEnv, hp] at h
      injection h with h2
      subst h2
      simp [setFieldFromEnv, hp]
  | uintv w x =>
    cases hp : goParseUint v with
    | error e => simp [setFieldFromEnv, hp] at h
    | ok n =>
      simp only [setFieldFromEnv, hp] at h
      injection h with h2
      subst h2
      simp [setFieldFromEnv, hp]
  | floatv is32 x =>
    cases hp : fops.parseFloat v with
    | error e => simp [setFieldFromEnv, hp] at h
    | ok y =>
      simp only [setFieldFromEnv, hp] at h
      injection h with h2
      subst h2
      simp [setFieldFromEnv, hp]
  | boolv b =>
    cases hp : goParseBool v with
    | error e => simp [setFieldFromEnv, hp] at h
    | ok b2 =>
      simp only [setFieldFromEnv, hp] at h
      injection h with h2
      subst h2
      simp [setFieldFromEnv, hp]
  | unsupported k => simp [setFieldFromEnv] at h

mutual

theorem loadField_idem (fops : FloatOps) (env : Env) (envPfx : GoStr) :
    ∀ (t t2 : FieldTree), loadFieldFromEnv fops env envPfx t = (t2, none) →
      loadFieldFromEnv fops env envPfx t2 = (t2, none)
  | .leaf nm tag cs sc, t2, h => by
    cases cs with
    | false =>
      simp only [loadFieldFromEnv, Bool.false_eq_true, if_false, Prod.mk.injEq,
        and_true] at h
      subst h
      simp [loadFieldFromEnv]
    | true =>
      cases hl : lookupEnv env (getEnvVarName tag envPfx) with
      | none =>
        simp only [loadFieldFromEnv, if_true, hl, Prod.mk.injEq, and_true] at h
        subst h
        simp [loadFieldFromEnv, hl]
      | some v =>
        cases hs : setFieldFromEnv fops sc v with
        | error e => simp [loadFieldFromEnv, hl, hs] at h
        | ok sc2 =>
          simp only [loadFieldFromEnv, if_true, hl, hs, Prod.mk.injEq, and_true] at h
          subst h
          simp [loadFieldFromEnv, hl, setFieldFromEnv_ok_idem fops sc sc2 v hs]
  | .nested nm tag cs inner, t2, h => by
    cases cs with
    | false =>
      simp only [loadFieldFromEnv, Bool.false_eq_true, if_false, Prod.mk.injEq,
        and_true] at h
      subst h
      simp [loadFieldFromEnv]
    | true =>
      simp only [loadFieldFromEnv, if_true, Prod.mk.injEq] at h
      obtain ⟨h1, h2⟩ := h
      subst h1
      have hin : loadStructFromEnv fops env envPfx inner =
          ((loadStructFromEnv fops env envPfx inner).1, none) := by
        rw [← h2]
      have hrec := loadStruct_idem fops env envPfx inner
        (loadStructFromEnv fops env envPfx inner).1 hin
      simp [loadFieldFromEnv, hrec]

theorem loadStruct_idem (fops : FloatOps) (env : Env) (envPfx : GoStr) :
    ∀ (fs fs2 : List FieldTree), loadStructFromEnv fops env envPfx fs = (fs2, none) →
      loadStructFromEnv fops env envPfx fs2 = (fs2, none)
  | [], fs2, h => by
    simp only [loadStructFromEnv, Prod.mk.injEq, and_true] at h
    subst h
    simp [loadStructFromEnv]
  | f :: rest, fs2, h => by
    cases hr : (loadFieldFromEnv fops env envPfx f).2 with
    | some e =>
      rw [loadStruct_cons_err fops env envPfx f rest e hr] at h
      simp at h
    | none =>
      rw [loadStruct_cons_ok fops env envPfx f rest hr] at h
      rw [Prod.mk.injEq] at h
      obtain ⟨h1, h2⟩ := h
      subst h1
      have hf : loadFieldFromEnv fops env envPfx f =
          ((loadFieldFromEnv fops env envPfx f).1, none) := by
        rw [← hr]
      have hf2 := loadField_idem fops env envPfx f (loadFieldFromEnv fops env envPfx f).1 hf
      have hrest : loadStructFromEnv fops env envPfx rest =
          ((loadStructFromEnv fops env envPfx rest).1, none) := by
        rw [← h2]
      have hrest2 := loadStruct_idem fops env envPfx rest
        (loadStructFromEnv fops env envPfx rest).1 hrest
      rw [loadStruct_cons_ok fops env envPfx _ _ (by rw [hf2])]
      rw [hrest2, hf2]

end

/-- C8: the environment pass is idempotent — when a pass over a record
succeeds, running it again over the result (same environment, same prefix,
same collaborators) returns exactly the same record state with no error. -/
theorem override_idempotent (fops : FloatOps) (env : Env) (envPfx : GoStr)
    (fs fs2 : List FieldTree)
    (h : loadStructFromEnv fops env envPfx fs = (fs2, none)) :
    loadStructFromEnv fops env envPfx fs2 = (fs2, none) :=
  loadStruct_idem fops env envPfx fs fs2 h

/-- C8 witness: one pass takes Port from 3000 to 9090; a second pass over the
result reproduces it unchanged. -/
theorem override_idempotent_inst :
    loadStructFromEnv fops0 (env1 "APP_PORT".toList "9090".toList) "APP".toList
        [.leaf "Port" "PORT".toList true (.intv 64 9090)] =
      ([.leaf "Port" "PORT".toList true (.intv 64 9090)], none) :=
  override_idempotent fops0 (env1 "APP_PORT".toList "9090".toList) "APP".toList
    [.leaf "Port" "PORT".toList true (.intv 64 3000)]
    [.leaf "Port" "PORT".toList true (.intv 64 9090)] rfl

/-- C6: an argument rejected by validateConfig (nil interface, non-pointer
value, nil pointer, or pointer to non-struct) makes Load return the wrapped
validation error immediately: the result is identical for every YAML
collaborator and every environment — so no file read or environment lookup
can influence it — and the argument comes back untouched. -/
theorem load_invalid_arg_early (cfg : GoAny) (e : GoError)
    (h : validateConfig cfg = some e)
    (yaml : YamlPhase) (fops : FloatOps) (env : Env) (acts : List GoAction) :
    Load yaml fops env cfg acts = (cfg, some (.wrapped "invalid config" e)) := by
  cases cfg with
  | nilInterface =>
    simp only [validateConfig, Option.some_inj] at h
    subst h
    rfl
  | nonPtr =>
    simp only [validateConfig, Option.some_inj] at h
    subst h
    rfl
  | nilPtr =>
    simp only [validateConfig, Option.some_inj] at h
    subst h
    rfl
  | ptrToNonStruct =>
    simp only [validateConfig, Option.some_inj] at h
    subst h
    rfl
  | ptrToStruct fields => simp [validateConfig] at h

/-- C6 witness: Load on the nil interface, under an arbitrary concrete YAML
collaborator and a non-empty environment, returns the validation error with
the argument unchanged. -/
theorem load_invalid_arg_early_inst :
    Load (fun _ _ fields => (fields, none)) fops0 (env1 "APP_X".toList "1".toList)
        .nilInterface [] =
      (.nilInterface,
       some (.wrapped "invalid config" (.simpleMsg "config must not be nil"))) :=
  load_invalid_arg_early .nilInterface (.simpleMsg "config must not be nil") rfl
    (fun _ _ fields => (fields, none)) fops0 (env1 "APP_X".toList "1".toList) []

/-- C9: strconv.ParseBool as used for boolean fields accepts exactly six
truthy tokens (yielding true) and six falsy tokens (yielding false); every
other string is the invalid-syntax parse error; and a boolean field stores
exactly the token's parse. -/
theorem bool_tokens_exact (s : GoStr) :
    (goParseBool s = .ok true ↔
      s ∈ ["1".toList, "t".toList, "T".toList, "true".toList, "TRUE".toList,
           "True".toList]) ∧
    (goParseBool s = .ok false ↔
      s ∈ ["0".toList, "f".toList, "F".toList, "false".toList, "FALSE".toList,
           "False".toList]) ∧
    (s ∉ ["1".toList, "t".toList, "T".toList, "true".toList, "TRUE".toList,
          "True".toList] →
     s ∉ ["0".toList, "f".toList, "F".toList, "false".toList, "FALSE".toList,
          "False".toList] →
     goParseBool s = .error (.numError "ParseBool" s "invalid syntax")) ∧
    (∀ (fops : FloatOps) (b v : Bool),
      setFieldFromEnv fops (.boolv b) s = .ok (.boolv v) ↔ goParseBool s = .ok v) := by
  have h4 : ∀ (fops : FloatOps) (b v : Bool),
      setFieldFromEnv fops (.boolv b) s = .ok (.boolv v) ↔ goParseBool s = .ok v := by
    intro fops b v
    cases hp : goParseBool s with
    | error e => simp [setFieldFromEnv, hp]
    | ok w => simp [setFieldFromEnv, hp]
  by_cases h1 : s = "1".toList ∨ s = "t".toList ∨ s = "T".toList ∨
      s = "true".toList ∨ s = "TRUE".toList ∨ s = "True".toList
  · refine ⟨?_, ?_, ?_, h4⟩ <;>
      (rcases h1 with rfl | rfl | rfl | rfl | rfl | rfl <;> decide)
  · by_cases h2 : s = "0".toList ∨ s = "f".toList ∨ s = "F".toList ∨
        s = "false".toList ∨ s = "FALSE".toList ∨ s = "False".toList
    · refine ⟨?_, ?_, ?_, h4⟩ <;>
        (rcases h2 with rfl | rfl | rfl | rfl | rfl | rfl <;> decide)
    · have hgb : goParseBool s = .error (.numError "ParseBool" s "invalid syntax") := by
        unfold goParseBool
        rw [if_neg h1, if_neg h2]
      refine ⟨?_, ?_, fun _ _ => hgb, h4⟩
      · rw [hgb]
        simp only [List.mem_cons, List.not_mem_nil, or_false]
        exact iff_of_false (by simp) h1
      · rw [hgb]
        simp only [List.mem_cons, List.not_mem_nil, or_false]
        exact iff_of_false (by simp) h2

/-- C9 witness: "yes" is none of the twelve tokens and is rejected with the
invalid-syntax error. -/
theorem bool_tokens_exact_inst :
    goParseBool "yes".toList =
      .error (.numError "ParseBool" "yes".toList "invalid syntax") :=
  (bool_tokens_exact "yes".toList).2.2.1 (by decide) (by decide)
